import Mathlib

/-!
# Verification of torchrl `modules/models/models.py` architecture construction

Shallow embedding of the declarative network-construction logic of
`src/torchrl/modules/models/models.py`: MLP, ConvNet/Conv3dNet construction
(depth resolution, per-layer broadcasting and validation, layer emission
order, bias placement), shape-level forward semantics (flatten/unflatten,
view reshaping), the dueling forward arithmetic, and the DDPG last-layer
initializer.

Numeric tensor values are modelled over `ℚ`; tensor shapes are `List ℕ`.
Layer modules are modelled by the `Layer` inductive capturing exactly the
fields the construction logic manipulates (in/out dims, kernel geometry,
bias flags); the numeric kernels themselves (matmul, convolution) are
external collaborators per the library's design and are modelled at the
shape level only.
-/

namespace Models

/-- A primitive layer emitted by the layer factory.  `linear` with
`inDim = none` is the lazy (`LazyLinear`) variant; likewise `conv` with
`inDim = none` is `LazyConv2d` / `LazyConv3d`.  `spatialDims` is 2 for
`nn.Conv2d` and 3 for `nn.Conv3d`.  Kernel sizes are modelled as square
(a single `ℕ` per layer); the construction logic treats each kernel entry
atomically, so nothing in the claims depends on rectangular kernels. -/
inductive Layer where
  | linear (inDim : Option ℕ) (outDim : ℕ) (bias : Bool)
  | conv (spatialDims : ℕ) (inDim : Option ℕ) (outDim : ℕ)
      (kernel stride padding : ℕ) (bias : Bool)
  | dropout
  | norm
  | activation
  | squashDims (ndimsIn : ℕ)
  | adaptiveAvgPool (spatialDims : ℕ)
  | squeezeTrailing (n : ℕ)
  deriving DecidableEq, Repr

/-- A parameter that may be an `int` (scalar, broadcast to depth) or a
`Sequence` of ints. -/
inductive IntOrSeq where
  | int (n : ℕ)
  | seq (l : List ℕ)
  deriving DecidableEq, Repr

/-- `out_features`: either a scalar count or a tuple of dims (in which case
the MLP output is reshaped to that tuple). -/
inductive OutFeatures where
  | scalar (n : ℕ)
  | multi (dims : List ℕ)
  deriving DecidableEq, Repr

/-- `prod(out_features)` when a tuple, identity on a scalar
(`MLP.__init__` lines 180-184). -/
def outFeaturesNum : OutFeatures → ℕ
  | .scalar n => n
  | .multi dims => dims.prod

/-- Is a layer a weighted (parameterized linear/convolutional) layer? -/
def isWeighted : Layer → Bool
  | .linear _ _ _ => true
  | .conv _ _ _ _ _ _ _ => true
  | _ => false

/-- The bias flag of a weighted layer. -/
def layerBias : Layer → Option Bool
  | .linear _ _ b => some b
  | .conv _ _ _ _ _ _ b => some b
  | _ => none

/-- The output dimension of a weighted layer. -/
def layerOutDim : Layer → Option ℕ
  | .linear _ o _ => some o
  | .conv _ _ o _ _ _ _ => some o
  | _ => none

/-! ## MLP construction (`MLP.__init__` / `MLP._make_net`) -/

/-- The configuration surface of `MLP.__init__` relevant to construction.
`dropout` / `norm` record whether `dropout` resp. `norm_class` were
configured (not `None`); `activation_class` / `layer_class` are fixed to
their standard kinds since kwargs/class identity do not affect the
construction logic under verification. -/
structure MLPConfig where
  in_features : Option ℕ
  out_features : OutFeatures
  depth : Option ℕ
  num_cells : Option IntOrSeq
  dropout : Bool
  norm : Bool
  bias_last_layer : Bool
  single_bias_last_layer : Bool
  activate_last_layer : Bool
  deriving DecidableEq, Repr

/-- The resolved state of a constructed `MLP` (its attributes after
`__init__` has validated the configuration). -/
structure MLPState where
  in_features : Option ℕ
  out_features : OutFeatures
  out_features_num : ℕ
  num_cells : List ℕ
  depth : ℕ
  dropout : Bool
  norm : Bool
  bias_last_layer : Bool
  activate_last_layer : Bool
  deriving DecidableEq, Repr

/-- `MLP.__init__` (models.py lines 149-215): default `num_cells`
handling, the `single_bias_last_layer` rejection, the
"int num_cells requires depth" check and the depth/num_cells length
check.  Errors are the exceptions raised by the corresponding source
lines. -/
def MLP_init (cfg : MLPConfig) : Except String MLPState :=
  -- default_num_cells = 32; if num_cells is None: ...
  let defaultNumCells := 32
  let nc : IntOrSeq :=
    match cfg.num_cells, cfg.depth with
    | none, none => .seq (List.replicate 3 defaultNumCells)
    | none, some d => .seq (List.replicate d defaultNumCells)
    | some v, _ => v
  let depthArg : Option ℕ :=
    match cfg.num_cells, cfg.depth with
    | none, none => some 3
    | _, d => d
  -- if single_bias_last_layer: raise NotImplementedError
  if cfg.single_bias_last_layer then .error "NotImplementedError" else
  -- if not (isinstance(num_cells, Sequence) or depth is not None): raise
  match nc, depthArg with
  | .int _, none =>
      .error "If num_cells is provided as an integer, depth must be provided too."
  | nc', depthArg' =>
  -- self.num_cells = list(num_cells) if Sequence else [num_cells] * depth
  let ncList : List ℕ :=
    match nc', depthArg' with
    | .seq l, _ => l
    | .int n, some d => List.replicate d n
    | .int _, none => []  -- unreachable: rejected by the check above
  -- self.depth = depth if depth is not None else len(self.num_cells)
  let depth := depthArg'.getD ncList.length
  -- if not (len(self.num_cells) == depth or depth is None): raise
  match depthArg' with
  | some d =>
      if ncList.length = d then
        .ok ⟨cfg.in_features, cfg.out_features, outFeaturesNum cfg.out_features,
             ncList, depth, cfg.dropout, cfg.norm, cfg.bias_last_layer,
             cfg.activate_last_layer⟩
      else
        .error "depth and num_cells length conflict"
  | none =>
      .ok ⟨cfg.in_features, cfg.out_features, outFeaturesNum cfg.out_features,
           ncList, depth, cfg.dropout, cfg.norm, cfg.bias_last_layer,
           cfg.activate_last_layer⟩

/-- The dropout/norm/activation tail appended after a linear layer
(`MLP._make_net` lines 248-259): dropout (if configured), then
normalization (if configured), then activation. -/
def mlpPost (st : MLPState) : List Layer :=
  (if st.dropout then [Layer.dropout] else []) ++
    (if st.norm then [Layer.norm] else []) ++ [Layer.activation]

/-- One iteration of the `MLP._make_net` loop: the weighted layer for the
enumerated pair `(i, (_in, _out))` followed by its conditional tail. -/
def mlpBlock (st : MLPState) (p : ℕ × (Option ℕ × ℕ)) : List Layer :=
  Layer.linear p.2.1 p.2.2 (if p.1 == st.depth then st.bias_last_layer else true) ::
    (if p.1 < st.depth || st.activate_last_layer then mlpPost st else [])

/-- `MLP._make_net` (lines 217-261): `in_features = [self.in_features] +
num_cells`, `out_features = num_cells + [out_features_num]`, one weighted
layer per zipped pair (lazy when the in-dim is `None`), with the
dropout/norm/activation tail when `i < depth or activate_last_layer`. -/
def MLP_make_net (st : MLPState) : List Layer :=
  let inF : List (Option ℕ) := st.in_features :: st.num_cells.map some
  let outF : List ℕ := st.num_cells ++ [st.out_features_num]
  (((inF.zip outF).enum).map (mlpBlock st)).flatten

/-! ## ConvNet / Conv3dNet construction -/

/-- The aggregator class attached after the convolutional stack:
`SquashDims` (the default) or `nn.AdaptiveAvgPool2d` / `AdaptiveAvgPool3d`. -/
inductive AggKind where
  | squashDims
  | avgPool
  deriving DecidableEq, Repr

/-- The configuration surface of `ConvNet.__init__` / `Conv3dNet.__init__`
relevant to construction.  `aggregator_ndims` models the `ndims_in` entry
of `aggregator_kwargs` (`none` means the kwargs were not supplied, so the
source defaults apply: 3 for 2D, 4 for 3D). -/
structure ConvConfig where
  in_features : Option ℕ
  depth : Option ℕ
  num_cells : Option IntOrSeq
  kernel_sizes : IntOrSeq
  strides : IntOrSeq
  paddings : IntOrSeq
  norm : Bool
  bias_last_layer : Bool
  aggregator : Option AggKind
  aggregator_ndims : Option ℕ
  squeeze_output : Bool
  deriving DecidableEq, Repr

/-- The resolved state of a constructed `ConvNet` (`spatialDims = 2`) or
`Conv3dNet` (`spatialDims = 3`). -/
structure ConvState where
  spatialDims : ℕ
  in_features : Option ℕ
  num_cells : List ℕ
  kernel_sizes : List ℕ
  strides : List ℕ
  paddings : List ℕ
  out_features : ℕ
  depth : ℕ
  norm : Bool
  bias_last_layer : Bool
  aggregator : Option AggKind
  aggregator_ndims : ℕ
  squeeze_output : Bool
  deriving DecidableEq, Repr

/-- Modelled from the spec: `_find_depth` lives in
`torchrl/modules/models/utils.py`, which is not part of the sources under
verification.  Per spec section 4.1, every sequence-valued parameter
contributes its length as a depth candidate (an explicitly given `depth`
is also a candidate); all candidates must agree, else the resolver fails;
with no candidate at all the resolver fails (the fixed default depth of
the spec is applied by the callers before resolution, via the `num_cells`
defaulting in `__init__`). -/
def depthCands (depth : Option ℕ) (params : List IntOrSeq) : List ℕ :=
  let lens := params.filterMap fun p =>
    match p with
    | .seq l => some l.length
    | .int _ => none
  match depth with
  | some d => d :: lens
  | none => lens

/-- See `depthCands` for the candidate collection. -/
def findDepth (depth : Option ℕ) (params : List IntOrSeq) : Except String ℕ :=
  match depthCands depth params with
  | [] => .error "depth=None requires one of the input args to be a list or tuple"
  | c :: rest =>
      if rest.all (fun x => x == c) then .ok c
      else .error "conflicting depth candidates"

/-- One step of the per-field loop of `ConvNet.__init__` (lines 397-416):
broadcast a scalar to `[value] * depth`, then require the resulting list
length to equal `depth`. -/
def resolveField (v : IntOrSeq) (depth : ℕ) : List ℕ :=
  match v with
  | .seq l => l
  | .int n => List.replicate depth n

def broadcastCheck (fieldName : String) (v : IntOrSeq) (depth : ℕ) :
    Except String (List ℕ) :=
  let l := resolveField v depth
  if l.length = depth then .ok l
  else .error ("depth=" ++ toString depth ++ " and " ++ fieldName ++ " length conflict")

/-- `ConvNet.__init__` (lines 356-422) and `Conv3dNet.__init__`
(lines 577-641), which differ only in the `num_cells` defaulting (the 3D
variant honours an explicit `depth` when defaulting), the error class and
the spatial dimensionality.  `threeD = false` gives `ConvNet`.  Order of
operations follows the source: defaulting, `_find_depth`, the null-depth
rejection, the four broadcast-and-check steps, `out_features =
num_cells[-1]`, and the final `self.depth = len(self.kernel_sizes)`. -/
def convNumCellsArg (threeD : Bool) (cfg : ConvConfig) : IntOrSeq :=
  match cfg.num_cells with
  | some v => v
  | none =>
      if threeD then
        match cfg.depth with
        | none => .seq [32, 32, 32]
        | some d => .seq (List.replicate d 32)
      else .seq [32, 32, 32]

def ConvNet_init (threeD : Bool) (cfg : ConvConfig) : Except String ConvState :=
  match findDepth cfg.depth
      [convNumCellsArg threeD cfg, cfg.kernel_sizes, cfg.strides, cfg.paddings] with
  | .error e => .error e
  | .ok depth =>
  if depth = 0 then .error "Null depth is not permitted" else
  match broadcastCheck "num_cells" (convNumCellsArg threeD cfg) depth with
  | .error e => .error e
  | .ok ncL =>
  match broadcastCheck "kernel_sizes" cfg.kernel_sizes depth with
  | .error e => .error e
  | .ok ksL =>
  match broadcastCheck "strides" cfg.strides depth with
  | .error e => .error e
  | .ok stL =>
  match broadcastCheck "paddings" cfg.paddings depth with
  | .error e => .error e
  | .ok pdL =>
  -- self.out_features = self.num_cells[-1] (negative indexing on an empty
  -- list would raise; unreachable since depth ≠ 0 and len(ncL) = depth)
  match ncL.getLast? with
  | none => .error "IndexError: list index out of range"
  | some outF =>
      .ok ⟨if threeD then 3 else 2, cfg.in_features, ncL, ksL, stL, pdL, outF,
           ksL.length, cfg.norm, cfg.bias_last_layer, cfg.aggregator,
           (match cfg.aggregator_ndims with
            | some n => n
            | none => if threeD then 4 else 3),
           cfg.squeeze_output⟩

/-- Zip of the five per-layer parameter lists of `ConvNet._make_net`
(truncating to the shortest, as Python `zip` does). -/
def zip5 {α β γ δ ε : Type} :
    List α → List β → List γ → List δ → List ε → List (α × β × γ × δ × ε)
  | a :: as, b :: bs, c :: cs, d :: ds, e :: es =>
      (a, b, c, d, e) :: zip5 as bs cs ds es
  | _, _, _, _, _ => []

/-- One iteration of the `ConvNet._make_net` loop for the enumerated row
`(i, (_in, _out, _kernel, _stride, _padding))`: the convolution (with
`_bias = (i < len(in_features) - 1) or bias_last_layer`), then the
activation, then the normalization layer when one is configured
(lines 431-467 / 650-686).  `inFLen` is `len(in_features)`. -/
def convBlock (st : ConvState) (inFLen : ℕ)
    (p : ℕ × (Option ℕ × ℕ × ℕ × ℕ × ℕ)) : List Layer :=
  [Layer.conv st.spatialDims p.2.1 p.2.2.1 p.2.2.2.1 p.2.2.2.2.1 p.2.2.2.2.2
      (decide (p.1 < inFLen - 1) || st.bias_last_layer),
   Layer.activation] ++ (if st.norm then [Layer.norm] else [])

/-- `ConvNet._make_net` (lines 424-478) / `Conv3dNet._make_net`
(lines 643-697): `in_features = [self.in_features] + num_cells[:depth]`,
`out_features = num_cells + [self.out_features]`, one convolution per
zipped row followed by activation and optional normalization, then the
optional aggregator and the optional squeeze layer. -/
def ConvNet_make_net (st : ConvState) : List Layer :=
  let inF : List (Option ℕ) := st.in_features :: (st.num_cells.take st.depth).map some
  let outF : List ℕ := st.num_cells ++ [st.out_features]
  let rows := zip5 inF outF st.kernel_sizes st.strides st.paddings
  ((rows.enum.map (convBlock st inF.length)).flatten) ++
    (match st.aggregator with
     | some .squashDims => [Layer.squashDims st.aggregator_ndims]
     | some .avgPool => [Layer.adaptiveAvgPool st.spatialDims]
     | none => []) ++
    (if st.squeeze_output then
      [Layer.squeezeTrailing (if st.spatialDims == 3 then 3 else 2)]
     else [])

/-! ## Shape-level forward semantics

Tensor shapes are `List ℕ`.  The numeric kernels are external (supplied by
the tensor framework); their documented shape contracts are modelled here:
`nn.Linear` requires the last axis to equal `in_features` and replaces it
with `out_features`; `nn.Conv2d`/`nn.Conv3d` accept batched or unbatched
input and apply the standard convolution output-size arithmetic;
elementwise layers preserve shape; `SquashDims(ndims_in)` is
`flatten(-ndims_in, -1)`; squeeze layers drop trailing singleton axes. -/

/-- Output spatial size of a convolution along one axis:
`floor((size + 2*padding - kernel) / stride) + 1`; fails when the padded
input is smaller than the kernel, or on degenerate kernel/stride. -/
def convSpatial (size kernel stride padding : ℕ) : Option ℕ :=
  if kernel = 0 ∨ stride = 0 then none
  else if size + 2 * padding < kernel then none
  else some ((size + 2 * padding - kernel) / stride + 1)

/-- Shape of a convolution: accepts rank `spatialDims+1` (unbatched) or
`spatialDims+2` (batched); the channel axis must match `inDim` when the
layer is not lazy. -/
def convShape (nd : ℕ) (inDim : Option ℕ) (outDim k st p : ℕ)
    (s : List ℕ) : Option (List ℕ) :=
  let go : ℕ → List ℕ → Option (List ℕ) := fun c spatial =>
    if (match inDim with | some i => c == i | none => true) then
      (spatial.mapM (fun z => convSpatial z k st p)).map (fun sp => outDim :: sp)
    else none
  if s.length = nd + 1 then
    match s with
    | c :: spatial => go c spatial
    | [] => none
  else if s.length = nd + 2 then
    match s with
    | n :: c :: spatial => (go c spatial).map (fun r => n :: r)
    | _ => none
  else none

/-- One `squeeze(-1)`: drops the last axis when it has extent 1; errors on
a 0-dimensional input (dim out of range). -/
def squeezeLastDim (s : List ℕ) : Option (List ℕ) :=
  match s.getLast? with
  | none => none
  | some z => if z = 1 then some s.dropLast else some s

/-- Shape transformation of a single layer. -/
def layerShape : Layer → List ℕ → Option (List ℕ)
  | .linear inDim outDim _, s =>
      match s.getLast? with
      | none => none
      | some d =>
          if (match inDim with | some i => d == i | none => true) then
            some (s.dropLast ++ [outDim])
          else none
  | .conv nd inDim outDim k st p _, s => convShape nd inDim outDim k st p s
  | .dropout, s => some s
  | .norm, s => some s
  | .activation, s => some s
  | .squashDims nd, s =>
      -- SquashDims: value.flatten(-ndims_in, -1)
      if 1 ≤ nd ∧ nd ≤ s.length then
        some (s.take (s.length - nd) ++ [(s.drop (s.length - nd)).prod])
      else none
  | .adaptiveAvgPool nd, s =>
      -- AdaptiveAvgPool with output size 1 along every spatial axis
      if s.length = nd + 1 ∨ s.length = nd + 2 then
        some (s.take (s.length - nd) ++ List.replicate nd 1)
      else none
  | .squeezeTrailing n, s =>
      -- n successive squeeze(-1) calls (Squeeze2dLayer / SqueezeLayer)
      Nat.rec (some s) (fun _ acc => acc.bind squeezeLastDim) n

/-- Shape of running a shape through an `nn.Sequential` of layers. -/
def forwardShape : List Layer → List ℕ → Option (List ℕ)
  | [], s => some s
  | l :: ls, s => (layerShape l s).bind (forwardShape ls)

/-- `ConvNet.forward` (lines 480-487) / `Conv3dNet.forward`
(lines 699-711) at the shape level: `*batch, C, L, W = inputs.shape`
(rank at least `spatialDims+1`, else the star-unpacking raises); when
there is more than one leading batch axis, `flatten(0, len(batch)-1)`
before the stack and `unflatten(0, batch)` after. -/
def ConvNet_forward_shape (st : ConvState) (s : List ℕ) : Option (List ℕ) :=
  let nd := st.spatialDims + 1
  if s.length < nd then none
  else
    let batch := s.take (s.length - nd)
    let inp := if batch.length > 1 then batch.prod :: s.drop (s.length - nd) else s
    (forwardShape (ConvNet_make_net st) inp).bind fun out =>
      if batch.length > 1 then
        match out with
        | [] => none
        | b :: rest => if b = batch.prod then some (batch ++ rest) else none
      else some out

/-- `MLP.forward` (lines 263-270) at the shape level for a single input
tensor: run the sequential stack, then — when `out_features` is a tuple —
`out.view(*out.shape[:-1], *self.out_features)`, which succeeds exactly
when the element counts agree. -/
def MLP_forward_shape (st : MLPState) (s : List ℕ) : Option (List ℕ) :=
  (forwardShape (MLP_make_net st) s).bind fun out =>
    match st.out_features with
    | .scalar _ => some out
    | .multi dims =>
        if (out.dropLast ++ dims).prod = out.prod then
          some (out.dropLast ++ dims)
        else none

/-! ## Dueling composites (`DuelingMlpDQNet.forward` lines 790-794,
`DuelingCnnDQNet.forward` lines 864-868) -/

/-- Mean of a vector (one row of the last tensor axis). -/
def vecMean (l : List ℚ) : ℚ := l.sum / (l.length : ℚ)

/-- The dueling forward pass for one batch row:
`x = features(x); advantage = advantage(x); value = value(x);
return value + advantage - advantage.mean(dim=-1, keepdim=True)`.
The value head's output (`out_features_value = 1`, a `B × 1` tensor
broadcast along the last axis) is modelled as the scalar it broadcasts. -/
def Dueling_forward {α β : Type} (features : α → β) (advantage : β → List ℚ)
    (value : β → ℚ) (x : α) : List ℚ :=
  let h := features x
  let adv := advantage h
  let v := value h
  adv.map fun a => v + a - vecMean adv

/-! ## DDPG last-layer initializer (`ddpg_init_last_layer` lines 925-948)
and the scales the four DDPG composites pass to it -/

/-- Module kinds relevant to `isinstance(last_layer, (nn.Linear, nn.Conv2d))`. -/
inductive ParamKind where
  | linear
  | conv2d
  | other
  deriving DecidableEq, Repr

/-- The parameters of one sub-module of an `nn.Sequential`: its kind, a
flat list of weight entries, and an optional flat list of bias entries
(`none` models `bias is None`). -/
structure LayerParams where
  kind : ParamKind
  weight : List ℚ
  bias : Option (List ℚ)
  deriving DecidableEq, Repr

/-- `isinstance(layer, (nn.Linear, nn.Conv2d))`. -/
def isLinearOrConv2d (k : ParamKind) : Bool :=
  k == ParamKind.linear || k == ParamKind.conv2d

/-- Index of the layer found by `for last_layer in reversed(module): if
isinstance(...): break` — the last linear/conv2d module, if any. -/
def lastInitIdx (net : List LayerParams) : Option ℕ :=
  ((net.enum.filter (fun p => isLinearOrConv2d p.2.kind)).getLast?).map (fun p => p.1)

/-- The in-place update performed on the found layer:
`weight.data.copy_(torch.rand_like(weight) * scale - scale / 2)` and the
same for the bias when it is present.  The uniform random draws are
supplied as tapes `rw`, `rb` of values in `[0, 1)`. -/
def reinitLayer (scale : ℚ) (rw rb : ℕ → ℚ) (l : LayerParams) : LayerParams :=
  ⟨l.kind,
   (List.range l.weight.length).map (fun i => rw i * scale - scale / 2),
   l.bias.map (fun b => (List.range b.length).map (fun i => rb i * scale - scale / 2))⟩

/-- `ddpg_init_last_layer`: find the last linear/conv2d module (raising
when there is none) and overwrite its weight and bias with uniform noise
in `[-scale/2, scale/2)`. -/
def ddpg_init_last_layer (net : List LayerParams) (scale : ℚ)
    (rw rb : ℕ → ℚ) : Except String (List LayerParams) :=
  match lastInitIdx net with
  | none => .error "Could not find a nn.Linear / nn.Conv2d to initialize."
  | some j =>
      .ok (net.enum.map (fun p => if p.1 = j then reinitLayer scale rw rb p.2 else p.2))

/-- Scale passed by `DdpgCnnActor.__init__` (line 1029): `6e-4`. -/
def DdpgCnnActor_scale : ℚ := 6 / 10000

/-- Scale passed by `DdpgMlpActor.__init__` (line 1078): `6e-3`. -/
def DdpgMlpActor_scale : ℚ := 6 / 1000

/-- Scale passed by `DdpgCnnQNet.__init__` (line 1159): `6e-4`. -/
def DdpgCnnQNet_scale : ℚ := 6 / 10000

/-- Scale passed by `DdpgMlpQNet.__init__` (line 1235): `6e-3`. -/
def DdpgMlpQNet_scale : ℚ := 6 / 1000

/-- The `ddpg_init_last_layer(self.mlp, 6e-4)` call of
`DdpgCnnActor.__init__`, acting on the freshly constructed MLP's
parameters (whose initial values come from the external framework's
default initialization and are taken as input). -/
def DdpgCnnActor_init (mlpParams : List LayerParams) (rw rb : ℕ → ℚ) :
    Except String (List LayerParams) :=
  ddpg_init_last_layer mlpParams DdpgCnnActor_scale rw rb

/-- The `ddpg_init_last_layer(self.mlp, 6e-3)` call of
`DdpgMlpActor.__init__`. -/
def DdpgMlpActor_init (mlpParams : List LayerParams) (rw rb : ℕ → ℚ) :
    Except String (List LayerParams) :=
  ddpg_init_last_layer mlpParams DdpgMlpActor_scale rw rb

/-- The `ddpg_init_last_layer(self.mlp, 6e-4)` call of
`DdpgCnnQNet.__init__`. -/
def DdpgCnnQNet_init (mlpParams : List LayerParams) (rw rb : ℕ → ℚ) :
    Except String (List LayerParams) :=
  ddpg_init_last_layer mlpParams DdpgCnnQNet_scale rw rb

/-- The `ddpg_init_last_layer(self.mlp2, 6e-3)` call of
`DdpgMlpQNet.__init__`. -/
def DdpgMlpQNet_init (mlpParams : List LayerParams) (rw rb : ℕ → ℚ) :
    Except String (List LayerParams) :=
  ddpg_init_last_layer mlpParams DdpgMlpQNet_scale rw rb

/-- Is an `Except` an error? -/
def isErr {ε α : Type} : Except ε α → Bool
  | .error _ => true
  | .ok _ => false

/-- Decidable equality for `Except`, used to evaluate construction results
in concrete witnesses. -/
instance {ε α : Type} [DecidableEq ε] [DecidableEq α] : DecidableEq (Except ε α) :=
  fun a b =>
  match a, b with
  | .error x, .error y =>
      match decEq x y with
      | isTrue h => isTrue (h ▸ rfl)
      | isFalse h => isFalse (fun hh => h (by cases hh; rfl))
  | .ok x, .ok y =>
      match decEq x y with
      | isTrue h => isTrue (h ▸ rfl)
      | isFalse h => isFalse (fun hh => h (by cases hh; rfl))
  | .error _, .ok _ => isFalse (fun hh => by cases hh)
  | .ok _, .error _ => isFalse (fun hh => by cases hh)

/-! ## General helper lemmas -/

theorem forwardShape_append (a b : List Layer) (s : List ℕ) :
    forwardShape (a ++ b) s = (forwardShape a s).bind (forwardShape b) := by
  induction a generalizing s with
  | nil => simp [forwardShape]
  | cons l ls ih =>
      simp only [List.cons_append, forwardShape]
      cases layerShape l s with
      | none => rfl
      | some u => simp [ih]

/-- The dropout/norm/activation tail is shape-preserving. -/
theorem forwardShape_mlpPost (st : MLPState) (s : List ℕ) :
    forwardShape (mlpPost st) s = some s := by
  cases hd : st.dropout <;> cases hn : st.norm <;>
    simp [mlpPost, hd, hn, forwardShape, layerShape]

/-- Shape of one MLP block: the block maps `s` to
`s.dropLast ++ [outDim]` whenever it succeeds. -/
theorem mlpBlock_shape (st : MLPState) (p : ℕ × (Option ℕ × ℕ)) (s t : List ℕ)
    (h : forwardShape (mlpBlock st p) s = some t) :
    t = s.dropLast ++ [p.2.2] := by
  simp only [mlpBlock, forwardShape] at h
  cases hL : layerShape (Layer.linear p.2.1 p.2.2
      (if p.1 == st.depth then st.bias_last_layer else true)) s with
  | none => rw [hL] at h; simp at h
  | some u =>
      rw [hL] at h
      simp only [Option.some_bind] at h
      have hu : u = s.dropLast ++ [p.2.2] := by
        simp only [layerShape] at hL
        cases hgl : s.getLast? with
        | none => simp only [hgl] at hL; simp at hL
        | some d =>
            simp only [hgl] at hL
            split at hL
            · exact (Option.some_inj.mp hL).symm
            · simp at hL
      subst hu
      split at h
      · rw [forwardShape_mlpPost] at h
        exact (Option.some_inj.mp h).symm
      · simp only [forwardShape] at h
        exact (Option.some_inj.mp h).symm

/-- `getLast?` of a cons with a nonempty tail. -/
theorem getLast?_cons_of_ne {α : Type} (a : α) (l : List α) (h : l ≠ []) :
    (a :: l).getLast? = l.getLast? := by
  cases l with
  | nil => exact absurd rfl h
  | cons b t => exact List.getLast?_cons_cons

/-- Last element of `enumFrom`-then-map. -/
theorem getLast?_enumFrom_map {α β : Type} (f : ℕ × α → β) :
    ∀ (n : ℕ) (l : List α),
      ((l.enumFrom n).map f).getLast? =
        l.getLast?.map (fun a => f (n + l.length - 1, a)) := by
  intro n l
  induction l generalizing n with
  | nil => rfl
  | cons x t ih =>
      cases t with
      | nil => simp [List.enumFrom]
      | cons y t' =>
          have h1 : ((x :: y :: t').enumFrom n).map f =
              f (n, x) :: ((y :: t').enumFrom (n + 1)).map f := by
            simp [List.enumFrom]
          rw [h1]
          have h2 : ((y :: t').enumFrom (n + 1)).map f ≠ [] := by
            simp [List.enumFrom]
          rw [getLast?_cons_of_ne _ _ h2, ih (n + 1)]
          have h3 : (y :: t').getLast? = (x :: y :: t').getLast? :=
            (List.getLast?_cons_cons).symm
          rw [h3]
          have h4 : n + 1 + (y :: t').length - 1 = n + (x :: y :: t').length - 1 := by
            simp only [List.length_cons]
            omega
          rw [h4]

/-- The chain of MLP blocks maps `s` to `s.dropLast ++ [o]` where `o` is
the out-dimension of the final block. -/
theorem mlp_chain (st : MLPState) :
    ∀ (ps : List (Option ℕ × ℕ)) (n : ℕ) (s t : List ℕ) (lastp : Option ℕ × ℕ),
      ps.getLast? = some lastp →
      forwardShape (((ps.enumFrom n).map (mlpBlock st)).flatten) s = some t →
      t = s.dropLast ++ [lastp.2] := by
  intro ps
  induction ps with
  | nil => intro n s t lastp h; simp at h
  | cons p rest ih =>
      intro n s t lastp hlast h
      cases rest with
      | nil =>
          simp only [List.getLast?_singleton, Option.some_inj] at hlast
          subst hlast
          have : ((([p]).enumFrom n).map (mlpBlock st)).flatten = mlpBlock st (n, p) := by
            simp [List.enumFrom]
          rw [this] at h
          exact mlpBlock_shape st (n, p) s t h
      | cons q rest' =>
          have hsplit : (((p :: q :: rest').enumFrom n).map (mlpBlock st)).flatten =
              mlpBlock st (n, p) ++ (((q :: rest').enumFrom (n + 1)).map (mlpBlock st)).flatten := by
            simp [List.enumFrom]
          rw [hsplit, forwardShape_append] at h
          cases hmid : forwardShape (mlpBlock st (n, p)) s with
          | none => rw [hmid] at h; simp at h
          | some mid =>
              rw [hmid] at h
              simp only [Option.some_bind] at h
              have hmid' := mlpBlock_shape st (n, p) s mid hmid
              have hlast' : (q :: rest').getLast? = some lastp := by
                rw [← List.getLast?_cons_cons (a := p)]; exact hlast
              have := ih (n + 1) mid t lastp hlast' h
              rw [this, hmid', List.dropLast_concat]

/-- The last pair of `(in0 :: nc.map some).zip (nc ++ [out])` has second
component `out`. -/
theorem zip_feature_last (out : ℕ) :
    ∀ (nc : List ℕ) (in0 : Option ℕ),
      ∃ q, ((in0 :: nc.map some).zip (nc ++ [out])).getLast? = some (q, out) := by
  intro nc
  induction nc with
  | nil => intro in0; exact ⟨in0, rfl⟩
  | cons c t ih =>
      intro in0
      obtain ⟨q, hq⟩ := ih (some c)
      refine ⟨q, ?_⟩
      have hne : ((some c :: t.map some).zip (t ++ [out])) ≠ [] := by
        cases t <;> simp [List.zip]
      calc ((in0 :: (c :: t).map some).zip ((c :: t) ++ [out])).getLast?
      _ = ((in0, c) :: ((some c :: t.map some).zip (t ++ [out]))).getLast? := by
            simp [List.zip]
      _ = ((some c :: t.map some).zip (t ++ [out])).getLast? :=
            getLast?_cons_of_ne _ _ hne
      _ = some (q, out) := hq

/-- Sum of pointwise subtraction of a constant. -/
theorem sum_map_sub_const (l : List ℚ) (m : ℚ) :
    (l.map (fun a => a - m)).sum = l.sum - l.length * m := by
  induction l with
  | nil => simp
  | cons x t ih => simp [ih]; ring

theorem flatten_map_singleton {α β : Type} (f : α → β) (l : List α) :
    (l.map (fun x => [f x])).flatten = l.map f := by
  induction l with
  | nil => rfl
  | cons x t ih => simp [ih]

theorem flatten_length_const {α : Type} (L : List (List α)) (k : ℕ)
    (h : ∀ b ∈ L, b.length = k) : L.flatten.length = k * L.length := by
  induction L with
  | nil => simp
  | cons b t ih =>
      simp only [List.flatten_cons, List.length_append, List.length_cons]
      rw [h b (by simp), ih (fun c hc => h c (by simp [hc]))]
      ring

/-- Indexing into a flatten of equal-length blocks. -/
theorem flatten_blocks_get {α : Type} (L : List (List α)) (k : ℕ)
    (h : ∀ b ∈ L, b.length = k) (i r : ℕ) (hi : i < L.length) (hr : r < k) :
    L.flatten[k * i + r]? = L[i]?.bind (fun b => b[r]?) := by
  induction L generalizing i with
  | nil => simp at hi
  | cons b t ih =>
      cases i with
      | zero =>
          have hb : b.length = k := h b (by simp)
          simp only [List.flatten_cons, Nat.mul_zero, Nat.zero_add]
          rw [List.getElem?_append]
          simp [hb, hr]
      | succ i' =>
          have hb : b.length = k := h b (by simp)
          have harith : k * (i' + 1) + r = b.length + (k * i' + r) := by
            rw [hb]; ring
          simp only [List.flatten_cons]
          rw [harith, List.getElem?_append_right (by omega)]
          have : b.length + (k * i' + r) - b.length = k * i' + r := by omega
          rw [this, ih (fun c hc => h c (by simp [hc])) i' (by simpa using hi)]
          simp

/-! ## Structure of the weighted layers of a constructed network -/

/-- The zipped `(in, out)` pairs of `MLP._make_net`. -/
def mlpPairs (st : MLPState) : List (Option ℕ × ℕ) :=
  (st.in_features :: st.num_cells.map some).zip (st.num_cells ++ [st.out_features_num])

/-- The weighted layer of one MLP block. -/
def mlpWeightFun (st : MLPState) (p : ℕ × (Option ℕ × ℕ)) : Layer :=
  Layer.linear p.2.1 p.2.2 (if p.1 == st.depth then st.bias_last_layer else true)

theorem mlpPost_filter (st : MLPState) :
    (mlpPost st).filter isWeighted = [] := by
  cases hd : st.dropout <;> cases hn : st.norm <;>
    simp [mlpPost, hd, hn, isWeighted]

theorem mlpBlock_filter (st : MLPState) (p : ℕ × (Option ℕ × ℕ)) :
    (mlpBlock st p).filter isWeighted = [mlpWeightFun st p] := by
  unfold mlpBlock mlpWeightFun
  rw [List.filter_cons]
  have h1 : isWeighted (Layer.linear p.2.1 p.2.2
      (if p.1 == st.depth then st.bias_last_layer else true)) = true := rfl
  rw [if_pos h1]
  congr 1
  by_cases hg : (p.1 < st.depth || st.activate_last_layer) = true
  · rw [if_pos hg]
    exact mlpPost_filter st
  · rw [if_neg hg]
    rfl

/-- The weighted layers of a built MLP, in order. -/
theorem MLP_weighted (st : MLPState) :
    (MLP_make_net st).filter isWeighted = (mlpPairs st).enum.map (mlpWeightFun st) := by
  unfold MLP_make_net
  rw [List.filter_flatten, List.map_map]
  have : (List.filter isWeighted ∘ mlpBlock st) = fun p => [mlpWeightFun st p] := by
    funext p
    exact mlpBlock_filter st p
  rw [this, flatten_map_singleton]
  rfl

theorem mlpPairs_length (st : MLPState) :
    (mlpPairs st).length = st.num_cells.length + 1 := by
  simp [mlpPairs]

theorem MLP_weighted_length (st : MLPState) :
    ((MLP_make_net st).filter isWeighted).length = st.num_cells.length + 1 := by
  rw [MLP_weighted]
  simp [mlpPairs_length]

theorem MLP_weighted_get (st : MLPState) (i : ℕ) :
    ((MLP_make_net st).filter isWeighted)[i]? =
      ((mlpPairs st)[i]?).map (fun pr => mlpWeightFun st (i, pr)) := by
  rw [MLP_weighted, List.getElem?_map, List.getElem?_enum]
  cases (mlpPairs st)[i]? <;> rfl

/-- The zipped per-layer rows of `ConvNet._make_net`. -/
def convRows (st : ConvState) : List (Option ℕ × ℕ × ℕ × ℕ × ℕ) :=
  zip5 (st.in_features :: (st.num_cells.take st.depth).map some)
    (st.num_cells ++ [st.out_features]) st.kernel_sizes st.strides st.paddings

/-- The weighted layer of one conv block (`inFLen` is `len(in_features)`). -/
def convWeightFun (st : ConvState) (inFLen : ℕ)
    (p : ℕ × (Option ℕ × ℕ × ℕ × ℕ × ℕ)) : Layer :=
  Layer.conv st.spatialDims p.2.1 p.2.2.1 p.2.2.2.1 p.2.2.2.2.1 p.2.2.2.2.2
    (decide (p.1 < inFLen - 1) || st.bias_last_layer)

theorem convBlock_filter (st : ConvState) (inFLen : ℕ)
    (p : ℕ × (Option ℕ × ℕ × ℕ × ℕ × ℕ)) :
    (convBlock st inFLen p).filter isWeighted = [convWeightFun st inFLen p] := by
  cases hn : st.norm <;> simp [convBlock, hn, isWeighted, convWeightFun]

/-- The aggregator / squeeze suffix contains no weighted layer. -/
theorem conv_suffix_filter (st : ConvState) :
    ((match st.aggregator with
      | some AggKind.squashDims => [Layer.squashDims st.aggregator_ndims]
      | some AggKind.avgPool => [Layer.adaptiveAvgPool st.spatialDims]
      | none => []) ++
     (if st.squeeze_output then
        [Layer.squeezeTrailing (if st.spatialDims == 3 then 3 else 2)]
      else [])).filter isWeighted = [] := by
  rcases hag : st.aggregator with _ | k
  · cases hs : st.squeeze_output <;> simp [hs, isWeighted]
  · cases k <;> cases hs : st.squeeze_output <;> simp [hs, isWeighted]

/-- The weighted layers of a built ConvNet/Conv3dNet, in order. -/
theorem Conv_weighted (st : ConvState) :
    (ConvNet_make_net st).filter isWeighted =
      (convRows st).enum.map
        (convWeightFun st (st.in_features :: (st.num_cells.take st.depth).map some).length) := by
  unfold ConvNet_make_net
  rw [List.append_assoc, List.filter_append, List.filter_flatten, List.map_map,
      conv_suffix_filter]
  have : (List.filter isWeighted ∘
      convBlock st (st.in_features :: (st.num_cells.take st.depth).map some).length) =
      fun p => [convWeightFun st
        (st.in_features :: (st.num_cells.take st.depth).map some).length p] := by
    funext p
    exact convBlock_filter st _ p
  rw [this, flatten_map_singleton, List.append_nil]
  rfl

/-- A per-layer parameter is compatible with an explicit depth when it is
scalar or a sequence of exactly that length. -/
def seqLenOk (v : IntOrSeq) (d : ℕ) : Prop :=
  match v with
  | .int _ => True
  | .seq l => l.length = d

theorem broadcastCheck_eq (nm : String) (v : IntOrSeq) (d : ℕ) :
    broadcastCheck nm v d =
      if (resolveField v d).length = d then .ok (resolveField v d)
      else .error ("depth=" ++ toString d ++ " and " ++ nm ++ " length conflict") := rfl

theorem broadcastCheck_ok_len (nm : String) (v : IntOrSeq) (d : ℕ) (l : List ℕ)
    (h : broadcastCheck nm v d = .ok l) : l.length = d := by
  rw [broadcastCheck_eq] at h
  split at h
  · next hlen =>
      rw [Except.ok.injEq] at h
      rw [← h]
      exact hlen
  · simp at h

theorem broadcastCheck_ok_of (nm : String) (v : IntOrSeq) (d : ℕ)
    (h : seqLenOk v d) :
    broadcastCheck nm v d = .ok (resolveField v d) := by
  cases v with
  | int n => simp [broadcastCheck, resolveField]
  | seq l =>
      simp only [seqLenOk] at h
      simp [broadcastCheck, resolveField, h]

/-- The candidate lens list of `depthCands`. -/
def seqLens (params : List IntOrSeq) : List ℕ :=
  params.filterMap fun p =>
    match p with
    | .seq l => some l.length
    | .int _ => none

theorem findDepth_some_eq (d : ℕ) (ps : List IntOrSeq) :
    findDepth (some d) ps =
      if (seqLens ps).all (fun x => x == d) then .ok d
      else .error "conflicting depth candidates" := rfl

theorem mem_seqLens (ps : List IntOrSeq) (x : ℕ) :
    x ∈ seqLens ps ↔ ∃ l, IntOrSeq.seq l ∈ ps ∧ l.length = x := by
  unfold seqLens
  rw [List.mem_filterMap]
  constructor
  · rintro ⟨p, hp, hpx⟩
    cases p with
    | int n => simp at hpx
    | seq l =>
        simp only [Option.some_inj] at hpx
        exact ⟨l, hp, hpx⟩
  · rintro ⟨l, hl, hlen⟩
    exact ⟨.seq l, hl, by simp [hlen]⟩

theorem findDepth_some_ok (d x : ℕ) (ps : List IntOrSeq)
    (h : findDepth (some d) ps = .ok x) : x = d := by
  rw [findDepth_some_eq] at h
  split at h
  · rw [Except.ok.injEq] at h
    exact h.symm
  · simp at h

theorem findDepth_ok_of (d : ℕ) (ps : List IntOrSeq)
    (h : ∀ p ∈ ps, ∀ l, p = .seq l → l.length = d) :
    findDepth (some d) ps = .ok d := by
  rw [findDepth_some_eq, if_pos]
  rw [List.all_eq_true]
  intro x hx
  rw [mem_seqLens] at hx
  obtain ⟨l, hl, hlen⟩ := hx
  rw [← hlen, h _ hl l rfl]
  exact beq_self_eq_true d

theorem findDepth_err_of (d : ℕ) (ps : List IntOrSeq) (p : IntOrSeq) (l : List ℕ)
    (hp : p ∈ ps) (hpl : p = .seq l) (hne : l.length ≠ d) :
    isErr (findDepth (some d) ps) = true := by
  rw [findDepth_some_eq, if_neg]
  · rfl
  · intro hall
    rw [List.all_eq_true] at hall
    have hmem : l.length ∈ seqLens ps := by
      rw [mem_seqLens]
      exact ⟨l, by rw [← hpl]; exact hp, rfl⟩
    have := hall _ hmem
    rw [beq_iff_eq] at this
    exact hne this

set_option linter.unnecessarySeqFocus false in
theorem zip5_length {α β γ δ ε : Type} :
    ∀ (a : List α) (b : List β) (c : List γ) (d : List δ) (e : List ε),
      (zip5 a b c d e).length =
        min a.length (min b.length (min c.length (min d.length e.length))) := by
  intro a
  induction a with
  | nil => intro b c d e; simp [zip5]
  | cons x t ih =>
      intro b c d e
      cases b <;> cases c <;> cases d <;> cases e <;>
        simp [zip5, ih] <;> omega

/-- Inversion of a successful `MLP.__init__`: relation between the
configuration and the resolved attributes. -/
theorem MLP_init_ok (cfg : MLPConfig) (st : MLPState) (h : MLP_init cfg = .ok st) :
    st.in_features = cfg.in_features ∧ st.out_features = cfg.out_features ∧
    st.out_features_num = outFeaturesNum cfg.out_features ∧
    st.num_cells.length = st.depth ∧
    st.dropout = cfg.dropout ∧ st.norm = cfg.norm ∧
    st.bias_last_layer = cfg.bias_last_layer ∧
    st.activate_last_layer = cfg.activate_last_layer ∧
    ∀ d, cfg.depth = some d → st.depth = d := by
  rcases cfg with ⟨inf, outf, dep, nc, dr, no, blast, sb, act⟩
  cases sb with
  | true => simp [MLP_init] at h
  | false =>
    rcases nc with _ | v
    · rcases dep with _ | d
      · simp only [MLP_init, if_false, Bool.false_eq_true] at h
        split at h
        · rw [Except.ok.injEq] at h
          subst h
          simp
        · simp at h
      · simp only [MLP_init, if_false, Bool.false_eq_true] at h
        split at h
        · rw [Except.ok.injEq] at h
          subst h
          simp
        · simp at h
    · rcases v with n | l
      · rcases dep with _ | d
        · simp [MLP_init] at h
        · simp only [MLP_init, if_false, Bool.false_eq_true] at h
          split at h
          · rw [Except.ok.injEq] at h
            subst h
            simp
          · simp at h
      · rcases dep with _ | d
        · simp only [MLP_init, if_false, Bool.false_eq_true] at h
          rw [Except.ok.injEq] at h
          subst h
          simp
        · simp only [MLP_init, if_false, Bool.false_eq_true] at h
          split at h
          · next hlen =>
              rw [Except.ok.injEq] at h
              subst h
              simp_all
          · simp at h

/-- Inversion of a successful `ConvNet.__init__` / `Conv3dNet.__init__`. -/
theorem ConvNet_init_ok (threeD : Bool) (cfg : ConvConfig) (st : ConvState)
    (h : ConvNet_init threeD cfg = .ok st) :
    st.spatialDims = (if threeD then 3 else 2) ∧
    st.num_cells.length = st.depth ∧ st.kernel_sizes.length = st.depth ∧
    st.strides.length = st.depth ∧ st.paddings.length = st.depth ∧
    0 < st.depth ∧
    st.norm = cfg.norm ∧ st.bias_last_layer = cfg.bias_last_layer ∧
    st.aggregator = cfg.aggregator ∧ st.squeeze_output = cfg.squeeze_output ∧
    st.in_features = cfg.in_features ∧
    (∀ d, cfg.depth = some d → st.depth = d) := by
  unfold ConvNet_init at h
  split at h
  · simp at h
  · next d0 hfd =>
      split at h
      · simp at h
      · next hd0 =>
        split at h
        · simp at h
        · next ncL hnc =>
          split at h
          · simp at h
          · next ksL hks =>
            split at h
            · simp at h
            · next stL hst =>
              split at h
              · simp at h
              · next pdL hpd =>
                split at h
                · simp at h
                · next outF hlast =>
                    rw [Except.ok.injEq] at h
                    subst h
                    have hncl := broadcastCheck_ok_len _ _ _ _ hnc
                    have hksl := broadcastCheck_ok_len _ _ _ _ hks
                    have hstl := broadcastCheck_ok_len _ _ _ _ hst
                    have hpdl := broadcastCheck_ok_len _ _ _ _ hpd
                    refine ⟨rfl, ?_, ?_, ?_, ?_, ?_, rfl, rfl, rfl, rfl, rfl, ?_⟩
                    · simp [hncl, hksl]
                    · simp [hksl]
                    · simp [hstl, hksl]
                    · simp [hpdl, hksl]
                    · simp only [hksl]
                      omega
                    · intro d hd
                      rw [hd] at hfd
                      have := findDepth_some_ok d d0 _ hfd
                      simp only [hksl, this]

/-! ## Claim theorems -/

/-- **C6**: for every input to a dueling composite, the forward output is
`value(x) + advantage(x) - mean(advantage(x))` along the last axis, and
consequently the mean over the last axis of `(output - value)` is zero
(the batch being nonempty along that axis). -/
theorem dueling_mean_zero :
    ∀ (α β : Type) (features : α → β) (advantage : β → List ℚ)
      (value : β → ℚ) (x : α),
      Dueling_forward features advantage value x =
        (advantage (features x)).map
          (fun a => value (features x) + a - vecMean (advantage (features x))) ∧
      (0 < (advantage (features x)).length →
        vecMean ((Dueling_forward features advantage value x).map
          (fun o => o - value (features x))) = 0) := by
  intro α β features advantage value x
  refine ⟨rfl, ?_⟩
  intro hlen
  have hcomp : (Dueling_forward features advantage value x).map
      (fun o => o - value (features x)) =
      (advantage (features x)).map
        (fun a => a - vecMean (advantage (features x))) := by
    simp only [Dueling_forward, List.map_map]
    apply List.map_congr_left
    intro a _
    simp only [Function.comp_apply]
    ring
  rw [hcomp]
  have hn : (((advantage (features x)).length : ℚ)) ≠ 0 := by
    exact_mod_cast Nat.pos_iff_ne_zero.mp hlen
  unfold vecMean
  rw [sum_map_sub_const, List.length_map]
  have key : (advantage (features x)).sum -
      ((advantage (features x)).length : ℚ) *
        ((advantage (features x)).sum / ((advantage (features x)).length : ℚ)) = 0 := by
    field_simp
  rw [key, zero_div]

/-- **C6 witness**: instantiation on a concrete advantage vector. -/
theorem dueling_mean_zero_witness :
    0 < ((fun h : List ℚ => h) ((fun x : List ℚ => x) [1, 2, 6])).length ∧
    vecMean ((Dueling_forward (fun x : List ℚ => x) (fun h => h)
      (fun _ => (5 : ℚ)) [1, 2, 6]).map
        (fun o => o - (fun _ : List ℚ => (5 : ℚ)) ((fun x : List ℚ => x) [1, 2, 6]))) = 0 :=
  ⟨by norm_num,
   (dueling_mean_zero (List ℚ) (List ℚ) (fun x => x) (fun h => h)
      (fun _ => (5 : ℚ)) [1, 2, 6]).2 (by norm_num)⟩

/-- **C10**: the DDPG last-layer initializer rewrites exactly the last
linear/conv2d module of the sequence: the result has the same length,
every other index is unchanged, and the touched layer keeps its kind (and
keeps an absent bias absent), with its parameters replaced by
`reinitLayer`. -/
theorem ddpg_init_frame :
    ∀ (net res : List LayerParams) (scale : ℚ) (rw2 rb : ℕ → ℚ) (j : ℕ),
      ddpg_init_last_layer net scale rw2 rb = .ok res →
      lastInitIdx net = some j →
      res.length = net.length ∧
      (∀ i, i ≠ j → res[i]? = net[i]?) ∧
      (∀ l, net[j]? = some l →
        res[j]? = some (reinitLayer scale rw2 rb l) ∧
        (reinitLayer scale rw2 rb l).kind = l.kind ∧
        (l.bias = none → (reinitLayer scale rw2 rb l).bias = none)) := by
  intro net res scale rw2 rb j h hj
  unfold ddpg_init_last_layer at h
  rw [hj] at h
  rw [Except.ok.injEq] at h
  subst h
  refine ⟨by simp [List.enum_length], ?_, ?_⟩
  · intro i hij
    rw [List.getElem?_map, List.getElem?_enum]
    cases hx : net[i]? with
    | none => rfl
    | some x => simp [hij]
  · intro l hl
    rw [List.getElem?_map, List.getElem?_enum, hl]
    refine ⟨by simp, rfl, ?_⟩
    intro hb
    simp [reinitLayer, hb]

/-- **C10 witness**: a concrete two-module network; only the last linear
layer is rewritten. -/
theorem ddpg_init_frame_witness :
    (ddpg_init_last_layer
        [⟨ParamKind.other, [7], some [8]⟩, ⟨ParamKind.linear, [1, 2], some [3]⟩]
        1 (fun _ => 1/2) (fun _ => 1/2) =
      .ok [⟨ParamKind.other, [7], some [8]⟩,
           reinitLayer 1 (fun _ => 1/2) (fun _ => 1/2) ⟨ParamKind.linear, [1, 2], some [3]⟩]) ∧
    (lastInitIdx
        [⟨ParamKind.other, [7], some [8]⟩, ⟨ParamKind.linear, [1, 2], some [3]⟩] = some 1) ∧
    ([⟨ParamKind.other, [7], some [8]⟩,
      reinitLayer 1 (fun _ => 1/2) (fun _ => 1/2)
        ⟨ParamKind.linear, [1, 2], some [3]⟩] : List LayerParams)[0]? =
      ([⟨ParamKind.other, [7], some [8]⟩, ⟨ParamKind.linear, [1, 2], some [3]⟩] :
        List LayerParams)[0]? := by
  have hok : ddpg_init_last_layer
      [⟨ParamKind.other, [7], some [8]⟩, ⟨ParamKind.linear, [1, 2], some [3]⟩]
      1 (fun _ => 1/2) (fun _ => 1/2) =
      .ok [⟨ParamKind.other, [7], some [8]⟩,
           reinitLayer 1 (fun _ => 1/2) (fun _ => 1/2) ⟨ParamKind.linear, [1, 2], some [3]⟩] := by
    rfl
  have hj : lastInitIdx
      [⟨ParamKind.other, [7], some [8]⟩, ⟨ParamKind.linear, [1, 2], some [3]⟩] = some 1 := by
    rfl
  have hframe := ddpg_init_frame _ _ 1 (fun _ => 1/2) (fun _ => 1/2) 1 hok hj
  exact ⟨hok, hj, hframe.2.1 0 (by norm_num)⟩

/-- A one-linear-layer parameter list used to exhibit the DDPG flat
actor's scale. -/
def ddpgCexNet : List LayerParams := [⟨ParamKind.linear, [0, 0], some [0]⟩]

/-- **C4 counterexample**: the claim says the scale constant is `6e-4`
for the actors, but `DdpgMlpActor.__init__` (line 1078) passes `6e-3`:
with the uniform draw `9/10` the flat actor's last-layer weight becomes
`24/10000 = 3/1250`, which lies outside `[-3/10000, 3/10000]`
(`[-scale/2, scale/2]` for the claimed `scale = 6e-4`). -/
theorem ddpg_mlp_actor_scale_cex :
    DdpgMlpActor_scale ≠ 6 / 10000 ∧
    DdpgMlpActor_init ddpgCexNet (fun _ => 9/10) (fun _ => 9/10) =
      .ok [⟨ParamKind.linear, [3/1250, 3/1250], some [3/1250]⟩] ∧
    ¬ (-(6 / 10000 / 2 : ℚ) ≤ 3/1250 ∧ (3/1250 : ℚ) ≤ 6 / 10000 / 2) := by
  refine ⟨by norm_num [DdpgMlpActor_scale], ?_, by norm_num⟩
  have h : DdpgMlpActor_init ddpgCexNet (fun _ => 9/10) (fun _ => 9/10) =
      .ok [reinitLayer DdpgMlpActor_scale (fun _ => 9/10) (fun _ => 9/10)
        ⟨ParamKind.linear, [0, 0], some [0]⟩] := rfl
  rw [h]
  have h2 : reinitLayer DdpgMlpActor_scale (fun _ => 9/10) (fun _ => 9/10)
      ⟨ParamKind.linear, [0, 0], some [0]⟩ =
      ⟨ParamKind.linear, [3/1250, 3/1250], some [3/1250]⟩ := by
    unfold reinitLayer DdpgMlpActor_scale
    norm_num [List.range_succ]
  rw [h2]

/-- **C4 (amended)**: DDPG last-layer parameters after initialization lie
within `[-scale/2, scale/2]`, where the scale is `6e-4` for the
convolutional actor and the convolutional critic and `6e-3` for the flat
actor and the flat critic. -/
theorem ddpg_last_layer_bounds :
    DdpgCnnActor_scale = 6 / 10000 ∧ DdpgCnnQNet_scale = 6 / 10000 ∧
    DdpgMlpActor_scale = 6 / 1000 ∧ DdpgMlpQNet_scale = 6 / 1000 ∧
    ∀ (scale : ℚ) (net res : List LayerParams) (rw2 rb : ℕ → ℚ) (j : ℕ)
      (l : LayerParams),
      0 < scale →
      (∀ i, 0 ≤ rw2 i ∧ rw2 i < 1) → (∀ i, 0 ≤ rb i ∧ rb i < 1) →
      ddpg_init_last_layer net scale rw2 rb = .ok res →
      lastInitIdx net = some j → res[j]? = some l →
      (∀ w ∈ l.weight, -(scale / 2) ≤ w ∧ w ≤ scale / 2) ∧
      (∀ bs, l.bias = some bs → ∀ b ∈ bs, -(scale / 2) ≤ b ∧ b ≤ scale / 2) := by
  refine ⟨rfl, rfl, rfl, rfl, ?_⟩
  intro scale net res rw2 rb j l hscale hrw hrb hok hj hl
  unfold ddpg_init_last_layer at hok
  rw [hj] at hok
  rw [Except.ok.injEq] at hok
  subst hok
  rw [List.getElem?_map, List.getElem?_enum] at hl
  cases hx : net[j]? with
  | none => rw [hx] at hl; simp at hl
  | some x =>
      rw [hx] at hl
      simp only [Option.map_some'] at hl
      have hl' : l = reinitLayer scale rw2 rb x := by
        simpa using hl.symm
      subst hl'
      constructor
      · intro w hw
        simp only [reinitLayer, List.mem_map, List.mem_range] at hw
        obtain ⟨i, _, hwi⟩ := hw
        have := hrw i
        constructor
        · nlinarith [this.1, this.2]
        · nlinarith [this.1, this.2]
      · intro bs hbs b hb
        simp only [reinitLayer] at hbs
        cases hxb : x.bias with
        | none => rw [hxb] at hbs; simp at hbs
        | some b0 =>
            rw [hxb] at hbs
            simp only [Option.map_some', Option.some_inj] at hbs
            rw [← hbs] at hb
            simp only [List.mem_map, List.mem_range] at hb
            obtain ⟨i, _, hbi⟩ := hb
            have := hrb i
            constructor
            · nlinarith [this.1, this.2]
            · nlinarith [this.1, this.2]

/-- **C4 witness**: the bound applied to a concrete initialization of the
flat critic (`scale = 6e-3`, a constant draw of `1/4`). -/
theorem ddpg_last_layer_bounds_witness :
    (0 < DdpgMlpQNet_scale ∧
      DdpgMlpQNet_init ddpgCexNet (fun _ => 1/4) (fun _ => 1/4) =
        .ok [reinitLayer DdpgMlpQNet_scale (fun _ => 1/4) (fun _ => 1/4)
          ⟨ParamKind.linear, [0, 0], some [0]⟩] ∧
      lastInitIdx ddpgCexNet = some 0) ∧
    (∀ w ∈ (reinitLayer DdpgMlpQNet_scale (fun _ => 1/4) (fun _ => 1/4)
        ⟨ParamKind.linear, [0, 0], some [0]⟩).weight,
      -(DdpgMlpQNet_scale / 2) ≤ w ∧ w ≤ DdpgMlpQNet_scale / 2) ∧
    (∀ bs, (reinitLayer DdpgMlpQNet_scale (fun _ => 1/4) (fun _ => 1/4)
        ⟨ParamKind.linear, [0, 0], some [0]⟩).bias = some bs →
      ∀ b ∈ bs, -(DdpgMlpQNet_scale / 2) ≤ b ∧ b ≤ DdpgMlpQNet_scale / 2) := by
  have hok : DdpgMlpQNet_init ddpgCexNet (fun _ => 1/4) (fun _ => 1/4) =
      .ok [reinitLayer DdpgMlpQNet_scale (fun _ => 1/4) (fun _ => 1/4)
        ⟨ParamKind.linear, [0, 0], some [0]⟩] := rfl
  have hj : lastInitIdx ddpgCexNet = some 0 := rfl
  have hget : (([reinitLayer DdpgMlpQNet_scale (fun _ => 1/4) (fun _ => 1/4)
      ⟨ParamKind.linear, [0, 0], some [0]⟩]) : List LayerParams)[0]? =
      some (reinitLayer DdpgMlpQNet_scale (fun _ => 1/4) (fun _ => 1/4)
        ⟨ParamKind.linear, [0, 0], some [0]⟩) := rfl
  have hb := ddpg_last_layer_bounds.2.2.2.2 DdpgMlpQNet_scale ddpgCexNet _
    (fun _ => 1/4) (fun _ => 1/4) 0 _ (by norm_num [DdpgMlpQNet_scale])
    (fun i => by norm_num) (fun i => by norm_num) hok hj hget
  exact ⟨⟨by norm_num [DdpgMlpQNet_scale], hok, hj⟩, hb.1, hb.2⟩

/-- Concrete `ConvNet` state (one `3×3` convolution over 3 input
channels, 4 output channels, `SquashDims` aggregator) used as the C7
witness network. -/
def convWitnessSt : ConvState :=
  ⟨2, some 3, [4], [3], [1], [0], 4, 1, false, true, some AggKind.squashDims, 3, false⟩

/-- **C7**: for every convolutional wrapper state, (a) a forward call on
an input with two or more leading batch dimensions that returns a shape
returns one whose leading dimensions equal the input's leading
dimensions (the flatten/unflatten round trip), and (b) a forward call on
an input with fewer than the minimum trailing dimensions (channel +
spatial axes) fails. -/
theorem conv_forward_batch_dims :
    (∀ (st : ConvState) (s out : List ℕ),
        st.spatialDims + 3 ≤ s.length →
        ConvNet_forward_shape st s = some out →
        out.take (s.length - (st.spatialDims + 1)) =
          s.take (s.length - (st.spatialDims + 1))) ∧
    (∀ (st : ConvState) (s : List ℕ),
        s.length < st.spatialDims + 1 → ConvNet_forward_shape st s = none) := by
  have hshape : ∀ (st : ConvState) (s : List ℕ),
      ConvNet_forward_shape st s =
        if s.length < st.spatialDims + 1 then none
        else
          (forwardShape (ConvNet_make_net st)
            (if (s.take (s.length - (st.spatialDims + 1))).length > 1 then
              (s.take (s.length - (st.spatialDims + 1))).prod ::
                s.drop (s.length - (st.spatialDims + 1))
            else s)).bind fun out =>
            if (s.take (s.length - (st.spatialDims + 1))).length > 1 then
              match out with
              | [] => none
              | b :: rest =>
                  if b = (s.take (s.length - (st.spatialDims + 1))).prod then
                    some (s.take (s.length - (st.spatialDims + 1)) ++ rest)
                  else none
            else some out := fun st s => rfl
  constructor
  · intro st s out hlen h
    rw [hshape] at h
    rw [if_neg (by omega)] at h
    have hbatch : (s.take (s.length - (st.spatialDims + 1))).length =
        s.length - (st.spatialDims + 1) := by
      rw [List.length_take]
      omega
    rw [if_pos (by omega : (s.take (s.length - (st.spatialDims + 1))).length > 1)] at h
    cases hmid : forwardShape (ConvNet_make_net st)
        ((s.take (s.length - (st.spatialDims + 1))).prod ::
          s.drop (s.length - (st.spatialDims + 1))) with
    | none => rw [hmid] at h; simp at h
    | some mid =>
        rw [hmid] at h
        simp only [Option.some_bind] at h
        rw [if_pos (by omega : (s.take (s.length - (st.spatialDims + 1))).length > 1)] at h
        cases mid with
        | nil => simp at h
        | cons b rest =>
            have h' : (if b = (s.take (s.length - (st.spatialDims + 1))).prod then
                some (s.take (s.length - (st.spatialDims + 1)) ++ rest)
              else none) = some out := h
            split at h'
            · rw [Option.some_inj] at h'
              rw [← h']
              have hTL := List.take_left (s.take (s.length - (st.spatialDims + 1))) rest
              rw [hbatch] at hTL
              exact hTL
            · simp at h'
  · intro st s hlt
    rw [hshape]
    rw [if_pos hlt]

/-- **C7 witness**: a concrete forward on shape `[2, 5, 3, 8, 8]`
(two leading batch dimensions) preserves the leading `[2, 5]`, and a
rank-2 input is rejected. -/
theorem conv_forward_batch_dims_witness :
    (convWitnessSt.spatialDims + 3 ≤ ([2, 5, 3, 8, 8] : List ℕ).length ∧
      ConvNet_forward_shape convWitnessSt [2, 5, 3, 8, 8] = some [2, 5, 144] ∧
      ([2, 5, 144] : List ℕ).take 2 = ([2, 5, 3, 8, 8] : List ℕ).take 2) ∧
    (([3, 8] : List ℕ).length < convWitnessSt.spatialDims + 1 ∧
      ConvNet_forward_shape convWitnessSt [3, 8] = none) := by
  refine ⟨⟨by decide, by decide, ?_⟩, by decide, ?_⟩
  · exact conv_forward_batch_dims.1 convWitnessSt [2, 5, 3, 8, 8] [2, 5, 144]
      (by decide) (by decide)
  · exact conv_forward_batch_dims.2 convWitnessSt [3, 8] (by decide)

/-- Is an optional layer present and a convolution? -/
def optIsConv : Option Layer → Bool
  | some (.conv _ _ _ _ _ _ _) => true
  | _ => false

/-- `ConvNet._make_net` split as the per-layer blocks followed by the
aggregator/squeeze suffix. -/
theorem ConvNet_make_net_eq (st : ConvState) :
    ConvNet_make_net st =
      ((convRows st).enum.map (convBlock st
        (st.in_features :: (st.num_cells.take st.depth).map some).length)).flatten ++
      ((match st.aggregator with
        | some AggKind.squashDims => [Layer.squashDims st.aggregator_ndims]
        | some AggKind.avgPool => [Layer.adaptiveAvgPool st.spatialDims]
        | none => []) ++
       (if st.squeeze_output then
          [Layer.squeezeTrailing (if st.spatialDims == 3 then 3 else 2)]
        else [])) := by
  unfold ConvNet_make_net convRows
  rw [List.append_assoc]

theorem convBlock_length (st : ConvState) (n : ℕ) (p : ℕ × (Option ℕ × ℕ × ℕ × ℕ × ℕ)) :
    (convBlock st n p).length = if st.norm then 3 else 2 := by
  cases hn : st.norm <;> simp [convBlock, hn]

theorem convRows_length (st : ConvState) (h1 : st.num_cells.length = st.depth)
    (h2 : st.kernel_sizes.length = st.depth) (h3 : st.strides.length = st.depth)
    (h4 : st.paddings.length = st.depth) :
    (convRows st).length = st.depth := by
  unfold convRows
  rw [zip5_length]
  simp only [List.length_cons, List.length_map, List.length_take, List.length_append,
    List.length_singleton, h1, h2, h3, h4]
  omega

/-- Concrete `ConvNet` configuration with a normalization class, used to
exhibit the post-convolution emission order. -/
def normOrderCfg : ConvConfig :=
  ⟨some 3, some 1, some (.seq [4]), .int 3, .int 1, .int 0, true, true,
   some AggKind.squashDims, none, false⟩

/-- The layers `ConvNet(in_features=3, depth=1, num_cells=[4],
norm_class=...)` emits. -/
def normOrderLayers : List Layer :=
  match ConvNet_init false normOrderCfg with
  | .ok st => ConvNet_make_net st
  | .error _ => []

/-- **C1 counterexample**: with a `norm_class` configured, the layer
emitted directly after the convolution (position 1) is the activation,
not the normalization layer; the claimed "normalization followed by
activation" order does not hold — the code emits activation first, then
normalization (`ConvNet._make_net` lines 459-467). -/
theorem conv_norm_order_cex :
    normOrderLayers = [Layer.conv 2 (some 3) 4 3 1 0 true, Layer.activation,
      Layer.norm, Layer.squashDims 3] ∧
    normOrderLayers[1]? = some Layer.activation ∧
    normOrderLayers[1]? ≠ some Layer.norm := by decide

/-- **C1 (amended)**: in every constructed `ConvNet`/`Conv3dNet`, each of
the `depth` convolutions is followed first by the activation layer and
then by the normalization layer (when a `norm_class` is configured), this
unconditionally for every convolution including the last (no
activate-last-layer gate), and no dropout layer is ever emitted. -/
theorem conv_post_layers_order :
    ∀ (threeD : Bool) (cfg : ConvConfig) (st : ConvState),
      ConvNet_init threeD cfg = .ok st →
      Layer.dropout ∉ ConvNet_make_net st ∧
      ∀ i, i < st.depth →
        optIsConv (ConvNet_make_net st)[(if st.norm then 3 else 2) * i]? = true ∧
        (ConvNet_make_net st)[(if st.norm then 3 else 2) * i + 1]? =
          some Layer.activation ∧
        (st.norm = true →
          (ConvNet_make_net st)[(if st.norm then 3 else 2) * i + 2]? =
            some Layer.norm) := by
  intro threeD cfg st hinit
  obtain ⟨_, hnc, hks, hst, hpd, hdpos, _, _, _, _, _, _⟩ :=
    ConvNet_init_ok threeD cfg st hinit
  have hrows : (convRows st).length = st.depth := convRows_length st hnc hks hst hpd
  set inFLen := (st.in_features :: (st.num_cells.take st.depth).map some).length with hifl
  set bs := (if st.norm then 3 else 2 : ℕ) with hbs
  have hbs2 : 2 ≤ bs := by
    rw [hbs]
    cases st.norm <;> simp
  have hblocks : ∀ b ∈ (convRows st).enum.map (convBlock st inFLen), b.length = bs := by
    intro b hb
    rw [List.mem_map] at hb
    obtain ⟨p, _, hp⟩ := hb
    rw [← hp]
    exact convBlock_length st inFLen p
  have hblen : ((convRows st).enum.map (convBlock st inFLen)).flatten.length =
      bs * st.depth := by
    rw [flatten_length_const _ bs hblocks]
    simp [List.enum_length, hrows]
  constructor
  · -- no dropout anywhere
    rw [ConvNet_make_net_eq]
    intro hmem
    rw [List.mem_append] at hmem
    rcases hmem with hm | hm
    · rw [List.mem_flatten] at hm
      obtain ⟨b, hb, hxb⟩ := hm
      rw [List.mem_map] at hb
      obtain ⟨p, _, hp⟩ := hb
      rw [← hp] at hxb
      revert hxb
      cases hn : st.norm <;> simp [convBlock, hn]
    · rw [List.mem_append] at hm
      rcases hm with hm | hm
      · revert hm
        rcases st.aggregator with _ | k
        · simp
        · cases k <;> simp
      · revert hm
        cases hs : st.squeeze_output <;> simp
  · intro i hi
    -- the i-th block sits at positions bs*i .. bs*i + (bs-1)
    have hidx : ∀ r, r < bs → bs * i + r < bs * st.depth := by
      intro r hr
      calc bs * i + r < bs * i + bs := by omega
      _ = bs * (i + 1) := by ring
      _ ≤ bs * st.depth := Nat.mul_le_mul_left bs (by omega)
    have hrow : ∃ row, (convRows st)[i]? = some row := by
      have : i < (convRows st).length := by omega
      exact ⟨(convRows st)[i], List.getElem?_eq_getElem this⟩
    obtain ⟨row, hrowEq⟩ := hrow
    have hget : ∀ r, r < bs →
        (ConvNet_make_net st)[bs * i + r]? = (convBlock st inFLen (i, row))[r]? := by
      intro r hr
      rw [ConvNet_make_net_eq, List.getElem?_append]
      rw [if_pos (by rw [hblen]; exact hidx r hr)]
      rw [flatten_blocks_get _ bs hblocks i r
        (by rw [List.length_map, List.enum_length]; omega) hr]
      rw [List.getElem?_map, List.getElem?_enum, hrowEq]
      rfl
    refine ⟨?_, ?_, ?_⟩
    · have h0 := hget 0 (by omega)
      rw [Nat.add_zero] at h0
      rw [h0]
      cases hn : st.norm <;> simp [convBlock, hn, optIsConv]
    · rw [hget 1 (by omega)]
      cases hn : st.norm <;> simp [convBlock, hn]
    · intro hn
      have hbs3 : bs = 3 := by rw [hbs, hn]; rfl
      rw [hget 2 (by omega)]
      simp [convBlock, hn]

/-- **C1 witness**: instantiation on the concrete one-convolution network
with a normalization class. -/
theorem conv_post_layers_order_witness :
    (∃ st, ConvNet_init false normOrderCfg = .ok st) ∧
    optIsConv normOrderLayers[0]? = true ∧
    normOrderLayers[1]? = some Layer.activation ∧
    normOrderLayers[2]? = some Layer.norm ∧
    Layer.dropout ∉ normOrderLayers := by
  have hinit : ConvNet_init false normOrderCfg =
      .ok ⟨2, some 3, [4], [3], [1], [0], 4, 1, true, true,
        some AggKind.squashDims, 3, false⟩ := by decide
  have h := conv_post_layers_order false normOrderCfg _ hinit
  have h0 := h.2 0 (by decide)
  have hlayers : normOrderLayers = ConvNet_make_net
      ⟨2, some 3, [4], [3], [1], [0], 4, 1, true, true,
        some AggKind.squashDims, 3, false⟩ := by decide
  refine ⟨⟨_, hinit⟩, ?_, ?_, ?_, ?_⟩
  · rw [hlayers]
    exact h0.1
  · rw [hlayers]
    exact h0.2.1
  · rw [hlayers]
    exact h0.2.2 rfl
  · rw [hlayers]
    exact h.1

/-- Concrete `ConvNet` configuration with `bias_last_layer=False`, used
to exhibit the convolutional bias behavior. -/
def convBiasCfg : ConvConfig :=
  ⟨some 3, some 1, some (.seq [4]), .int 3, .int 1, .int 0, false, false,
   some AggKind.squashDims, none, false⟩

/-- The state `ConvNet(in_features=3, depth=1, num_cells=[4],
bias_last_layer=False)` resolves to. -/
def convBiasSt : ConvState :=
  ⟨2, some 3, [4], [3], [1], [0], 4, 1, false, false,
   some AggKind.squashDims, 3, false⟩

/-- **C2 counterexample**: with `bias_last_layer=False` and depth 1, the
final (only) convolutional layer is still built with `bias=True`, because
the loop index never reaches `len(in_features) - 1` (the five-way `zip`
truncates to `depth` iterations while `in_features` has `depth + 1`
entries), so `(i < len(in_features) - 1)` is true on every built layer
and the claimed `bias=False` final layer never occurs. -/
theorem conv_last_bias_cex :
    convBiasCfg.bias_last_layer = false ∧
    ConvNet_init false convBiasCfg = .ok convBiasSt ∧
    ((ConvNet_make_net convBiasSt).filter isWeighted).getLast? =
      some (Layer.conv 2 (some 3) 4 3 1 0 true) ∧
    layerBias (Layer.conv 2 (some 3) 4 3 1 0 true) ≠ some false := by decide

/-- **C2 (amended)**: the weighted layers built by `MLP` have bias `True`
for every non-final layer and bias `bias_last_layer` for the final layer;
the weighted layers built by `ConvNet`/`Conv3dNet` have bias
`(i < len(in_features) - 1) or bias_last_layer`, and since every one of
the `depth` built layers satisfies `i < len(in_features) - 1 = depth`,
every convolutional layer — including the final one — has bias `True`
regardless of `bias_last_layer`. -/
theorem weighted_bias_rule :
    (∀ (cfg : MLPConfig) (st : MLPState), MLP_init cfg = .ok st →
      ∀ i l, ((MLP_make_net st).filter isWeighted)[i]? = some l →
        layerBias l = some (if i = st.depth then st.bias_last_layer else true)) ∧
    (∀ (threeD : Bool) (cfg : ConvConfig) (st : ConvState),
      ConvNet_init threeD cfg = .ok st →
      ∀ l, l ∈ (ConvNet_make_net st).filter isWeighted →
        layerBias l = some true) := by
  constructor
  · intro cfg st _ i l hl
    rw [MLP_weighted_get] at hl
    cases hp : (mlpPairs st)[i]? with
    | none => rw [hp] at hl; simp at hl
    | some pr =>
        rw [hp] at hl
        simp only [Option.map_some', Option.some_inj] at hl
        rw [← hl]
        simp only [mlpWeightFun, layerBias, Option.some_inj]
        by_cases h : i = st.depth
        · simp [h]
        · simp [h]
  · intro threeD cfg st hinit l hl
    obtain ⟨_, hnc, hks, hst, hpd, _, _, _, _, _, _, _⟩ :=
      ConvNet_init_ok threeD cfg st hinit
    have hrows : (convRows st).length = st.depth := convRows_length st hnc hks hst hpd
    rw [Conv_weighted, List.mem_map] at hl
    obtain ⟨p, hp, hpl⟩ := hl
    have hlt : p.1 < st.depth := by
      obtain ⟨j, hj⟩ := List.mem_iff_getElem?.mp hp
      rw [List.getElem?_enum] at hj
      cases hx : (convRows st)[j]? with
      | none => rw [hx] at hj; simp at hj
      | some row =>
          rw [hx] at hj
          simp only [Option.map_some', Option.some_inj] at hj
          have hj1 : p.1 = j := by rw [← hj]
          have hjlen : j < (convRows st).length := (List.getElem?_eq_some.mp hx).1
          omega
    rw [← hpl]
    simp only [convWeightFun, layerBias, Option.some_inj]
    have hifl : (st.in_features :: (st.num_cells.take st.depth).map some).length =
        st.depth + 1 := by
      simp only [List.length_cons, List.length_map, List.length_take, hnc]
      omega
    rw [hifl]
    simp only [Bool.or_eq_true, decide_eq_true_eq]
    exact Or.inl (by omega)

/-- Concrete `MLP` configuration with `bias_last_layer=False` and depth 1
(two weighted layers), used as the C2 witness. -/
def mlpBiasCfg : MLPConfig :=
  ⟨some 3, .scalar 6, some 1, some (.seq [32]), false, false, false, false, false⟩

/-- The state `mlpBiasCfg` resolves to. -/
def mlpBiasSt : MLPState := ⟨some 3, .scalar 6, 6, [32], 1, false, false, false, false⟩

/-- **C2 witness**: on `mlpBiasCfg`, the non-final weighted layer has
bias `True` and the final one has bias `bias_last_layer = False`; on
`convBiasCfg`, the built convolutional layer has bias `True`. -/
theorem weighted_bias_rule_witness :
    (layerBias (Layer.linear (some 3) 32 true) =
      some (if 0 = mlpBiasSt.depth then mlpBiasSt.bias_last_layer else true) ∧
     layerBias (Layer.linear (some 32) 6 false) =
      some (if 1 = mlpBiasSt.depth then mlpBiasSt.bias_last_layer else true)) ∧
    layerBias (Layer.conv 2 (some 3) 4 3 1 0 true) = some true := by
  refine ⟨⟨?_, ?_⟩, ?_⟩
  · exact weighted_bias_rule.1 mlpBiasCfg mlpBiasSt (by decide) 0 _ (by decide)
  · exact weighted_bias_rule.1 mlpBiasCfg mlpBiasSt (by decide) 1 _ (by decide)
  · exact weighted_bias_rule.2 false convBiasCfg convBiasSt (by decide) _ (by decide)

/-- **C3**: for every valid configuration whose `num_cells` is a sequence
of length equal to the explicit depth, construction succeeds and the
number of weighted layers is `depth + 1` for `MLP` and exactly `depth`
for `ConvNet`/`Conv3dNet` (the aggregator/squeeze steps carry no
weights and are excluded by the `isWeighted` filter). -/
theorem weighted_layer_count :
    (∀ (cfg : MLPConfig) (d : ℕ) (l : List ℕ),
      cfg.depth = some d → cfg.num_cells = some (.seq l) → l.length = d →
      cfg.single_bias_last_layer = false →
      ∃ st, MLP_init cfg = .ok st ∧
        ((MLP_make_net st).filter isWeighted).length = d + 1) ∧
    (∀ (threeD : Bool) (cfg : ConvConfig) (d : ℕ) (l : List ℕ),
      cfg.depth = some d → cfg.num_cells = some (.seq l) → l.length = d →
      0 < d →
      seqLenOk cfg.kernel_sizes d → seqLenOk cfg.strides d → seqLenOk cfg.paddings d →
      ∃ st, ConvNet_init threeD cfg = .ok st ∧
        ((ConvNet_make_net st).filter isWeighted).length = d) := by
  constructor
  · intro cfg d l hdep hnc hlen hsb
    rcases cfg with ⟨inf, outf, dep, nc, dr, no, blast, sb, act⟩
    simp only at hdep hnc hsb
    subst hdep hnc hsb
    refine ⟨⟨inf, outf, outFeaturesNum outf, l, d, dr, no, blast, act⟩, ?_, ?_⟩
    · simp [MLP_init, hlen]
    · rw [MLP_weighted_length]
      simp [hlen]
  · intro threeD cfg d l hdep hnc hlen hdpos hk hs hp
    have hnca : convNumCellsArg threeD cfg = .seq l := by
      simp [convNumCellsArg, hnc]
    have hfd : findDepth cfg.depth
        [convNumCellsArg threeD cfg, cfg.kernel_sizes, cfg.strides, cfg.paddings] =
        .ok d := by
      rw [hdep]
      apply findDepth_ok_of
      intro p hp' l' hpl'
      simp only [List.mem_cons, List.mem_singleton, List.not_mem_nil, or_false] at hp'
      rcases hp' with h1 | h1 | h1 | h1
      · rw [h1, hnca] at hpl'
        cases hpl'
        exact hlen
      · rw [← h1] at hk
        rw [hpl'] at hk
        exact hk
      · rw [← h1] at hs
        rw [hpl'] at hs
        exact hs
      · rw [← h1] at hp
        rw [hpl'] at hp
        exact hp
    have hbc1 : broadcastCheck "num_cells" (convNumCellsArg threeD cfg) d = .ok l := by
      rw [hnca]
      have := broadcastCheck_ok_of "num_cells" (.seq l) d (by simpa [seqLenOk] using hlen)
      simpa [resolveField] using this
    have hbc2 := broadcastCheck_ok_of "kernel_sizes" cfg.kernel_sizes d hk
    have hbc3 := broadcastCheck_ok_of "strides" cfg.strides d hs
    have hbc4 := broadcastCheck_ok_of "paddings" cfg.paddings d hp
    have hlne : l ≠ [] := by
      intro h0
      rw [h0] at hlen
      simp at hlen
      omega
    obtain ⟨lastv, hlast⟩ : ∃ v, l.getLast? = some v := by
      cases l with
      | nil => exact absurd rfl hlne
      | cons a t => exact ⟨_, List.getLast?_eq_getLast (a :: t) (by simp)⟩
    have hst : ConvNet_init threeD cfg = .ok
        ⟨if threeD then 3 else 2, cfg.in_features, l,
         resolveField cfg.kernel_sizes d, resolveField cfg.strides d,
         resolveField cfg.paddings d, lastv,
         (resolveField cfg.kernel_sizes d).length, cfg.norm, cfg.bias_last_layer,
         cfg.aggregator,
         (match cfg.aggregator_ndims with
          | some n => n
          | none => if threeD then 4 else 3),
         cfg.squeeze_output⟩ := by
      simp only [ConvNet_init, hfd]
      rw [if_neg (by omega : ¬ d = 0)]
      simp only [hbc1, hbc2, hbc3, hbc4, hlast]
    refine ⟨_, hst, ?_⟩
    set st := (⟨if threeD then 3 else 2, cfg.in_features, l,
         resolveField cfg.kernel_sizes d, resolveField cfg.strides d,
         resolveField cfg.paddings d, lastv,
         (resolveField cfg.kernel_sizes d).length, cfg.norm, cfg.bias_last_layer,
         cfg.aggregator,
         (match cfg.aggregator_ndims with
          | some n => n
          | none => if threeD then 4 else 3),
         cfg.squeeze_output⟩ : ConvState)
    obtain ⟨_, hnc', hks', hst', hpd', _, _, _, _, _, _, hdep'⟩ :=
      ConvNet_init_ok threeD cfg st hst
    have hrows := convRows_length st hnc' hks' hst' hpd'
    rw [Conv_weighted, List.length_map, List.enum_length, hrows]
    exact hdep' d hdep

/-- Concrete valid configurations (`depth=2`, `num_cells=[5, 6]`) for the
C3 witness. -/
def countMlpCfg : MLPConfig :=
  ⟨some 3, .scalar 7, some 2, some (.seq [5, 6]), false, false, true, false, false⟩

/-- Concrete conv configuration for the C3 witness. -/
def countConvCfg : ConvConfig :=
  ⟨some 3, some 2, some (.seq [5, 6]), .int 3, .int 1, .int 0, false, true,
   some AggKind.squashDims, none, false⟩

/-- **C3 witness**: the concrete `depth=2` networks construct and carry
3 resp. 2 weighted layers. -/
theorem weighted_layer_count_witness :
    (∃ st, MLP_init countMlpCfg = .ok st ∧
      ((MLP_make_net st).filter isWeighted).length = 2 + 1) ∧
    (∃ st, ConvNet_init false countConvCfg = .ok st ∧
      ((ConvNet_make_net st).filter isWeighted).length = 2) := by
  constructor
  · exact weighted_layer_count.1 countMlpCfg 2 [5, 6] rfl rfl (by decide) rfl
  · exact weighted_layer_count.2 false countConvCfg 2 [5, 6] rfl rfl (by decide)
      (by decide) trivial trivial trivial

/-- **C5**: whenever an explicit depth is given together with a
sequence-valued per-layer parameter whose length differs from it
(`num_cells` for `MLP`; any of `num_cells`, `kernel_sizes`, `strides`,
`paddings` for the convolutional networks), construction returns an
error and no network state results. -/
theorem mismatch_raises :
    (∀ (cfg : MLPConfig) (d : ℕ) (l : List ℕ),
      cfg.depth = some d → cfg.num_cells = some (.seq l) → l.length ≠ d →
      isErr (MLP_init cfg) = true) ∧
    (∀ (threeD : Bool) (cfg : ConvConfig) (d : ℕ),
      cfg.depth = some d →
      ((∃ l, cfg.num_cells = some (.seq l) ∧ l.length ≠ d) ∨
       (∃ l, cfg.kernel_sizes = .seq l ∧ l.length ≠ d) ∨
       (∃ l, cfg.strides = .seq l ∧ l.length ≠ d) ∨
       (∃ l, cfg.paddings = .seq l ∧ l.length ≠ d)) →
      isErr (ConvNet_init threeD cfg) = true) := by
  constructor
  · intro cfg d l hdep hnc hne
    rcases cfg with ⟨inf, outf, dep, nc, dr, no, blast, sb, act⟩
    simp only at hdep hnc
    subst hdep hnc
    cases sb with
    | true => rfl
    | false =>
        simp only [MLP_init, Bool.false_eq_true, if_false]
        rw [if_neg hne]
        rfl
  · intro threeD cfg d hdep hbad
    have hfd : isErr (findDepth (some d)
        [convNumCellsArg threeD cfg, cfg.kernel_sizes, cfg.strides, cfg.paddings]) =
        true := by
      rcases hbad with ⟨l, hl, hne⟩ | ⟨l, hl, hne⟩ | ⟨l, hl, hne⟩ | ⟨l, hl, hne⟩
      · exact findDepth_err_of d _ (convNumCellsArg threeD cfg) l (by simp)
          (by simp [convNumCellsArg, hl]) hne
      · exact findDepth_err_of d _ cfg.kernel_sizes l (by simp) hl hne
      · exact findDepth_err_of d _ cfg.strides l (by simp) hl hne
      · exact findDepth_err_of d _ cfg.paddings l (by simp) hl hne
    cases hfd' : findDepth (some d)
        [convNumCellsArg threeD cfg, cfg.kernel_sizes, cfg.strides, cfg.paddings] with
    | error e =>
        unfold ConvNet_init
        rw [hdep, hfd']
        rfl
    | ok x =>
        rw [hfd'] at hfd
        simp [isErr] at hfd

/-- Concrete mismatched configurations for the C5 witness. -/
def badMlpCfg : MLPConfig :=
  ⟨some 3, .scalar 6, some 2, some (.seq [4, 4, 4]), false, false, true, false, false⟩

/-- Concrete mismatched conv configuration for the C5 witness. -/
def badConvCfg : ConvConfig :=
  ⟨some 3, some 2, some (.seq [4]), .int 3, .int 1, .int 0, false, true,
   some AggKind.squashDims, none, false⟩

/-- **C5 witness**: the concrete mismatched configurations error. -/
theorem mismatch_raises_witness :
    isErr (MLP_init badMlpCfg) = true ∧
    isErr (ConvNet_init false badConvCfg) = true := by
  constructor
  · exact mismatch_raises.1 badMlpCfg 2 [4, 4, 4] rfl rfl (by decide)
  · exact mismatch_raises.2 false badConvCfg 2 rfl (Or.inl ⟨[4], rfl, by decide⟩)

/-- **C9**: `depth == 0` is rejected by `ConvNet` and `Conv3dNet`
("Null depth is not permitted"), while `MLP` accepts it — for any depth-0
configuration that is otherwise consistent, construction succeeds and the
single weighted layer maps the global `in_features` to the global
`out_features`. -/
theorem depth_zero_behavior :
    (∀ (threeD : Bool) (cfg : ConvConfig), cfg.depth = some 0 →
      isErr (ConvNet_init threeD cfg) = true) ∧
    (∀ (cfg : MLPConfig) (st : MLPState), cfg.depth = some 0 →
      MLP_init cfg = .ok st →
      (MLP_make_net st).filter isWeighted =
        [Layer.linear cfg.in_features (outFeaturesNum cfg.out_features)
          cfg.bias_last_layer]) ∧
    (∀ (cfg : MLPConfig), cfg.depth = some 0 →
      cfg.single_bias_last_layer = false →
      (match cfg.num_cells with
       | some (.seq l) => l = []
       | _ => True) →
      ∃ st, MLP_init cfg = .ok st) := by
  refine ⟨?_, ?_, ?_⟩
  · intro threeD cfg hdep
    cases hfd : findDepth cfg.depth
        [convNumCellsArg threeD cfg, cfg.kernel_sizes, cfg.strides, cfg.paddings] with
    | error e =>
        unfold ConvNet_init
        rw [hfd]
        rfl
    | ok d0 =>
        have h0 : d0 = 0 := by
          rw [hdep] at hfd
          exact findDepth_some_ok 0 d0 _ hfd
        unfold ConvNet_init
        rw [hfd, h0]
        rfl
  · intro cfg st hdep hinit
    obtain ⟨hin, hout, houtn, hlen, _, _, hbias, _, hdepth⟩ :=
      MLP_init_ok cfg st hinit
    have hd0 : st.depth = 0 := hdepth 0 hdep
    have hnc0 : st.num_cells = [] := by
      have hl0 : st.num_cells.length = 0 := by rw [hlen, hd0]
      exact List.length_eq_zero.mp hl0
    rw [MLP_weighted]
    rw [show mlpPairs st = [(st.in_features, st.out_features_num)] from by
      simp [mlpPairs, hnc0]]
    rw [List.enum_eq_enumFrom]
    simp [List.enumFrom, mlpWeightFun, hd0, hin, ← houtn, hbias]
  · intro cfg hdep hsb hnc
    rcases cfg with ⟨inf, outf, dep, nc, dr, no, blast, sb, act⟩
    simp only at hdep hsb hnc
    subst hdep hsb
    rcases nc with _ | v
    · exact ⟨⟨inf, outf, outFeaturesNum outf, [], 0, dr, no, blast, act⟩,
        by simp [MLP_init]⟩
    · rcases v with n | l
      · exact ⟨⟨inf, outf, outFeaturesNum outf, [], 0, dr, no, blast, act⟩,
          by simp [MLP_init]⟩
      · have hl0 : l = [] := hnc
        subst hl0
        exact ⟨⟨inf, outf, outFeaturesNum outf, [], 0, dr, no, blast, act⟩,
          by simp [MLP_init]⟩

/-- Concrete depth-0 configurations for the C9 witness. -/
def zeroConvCfg : ConvConfig :=
  ⟨some 3, some 0, none, .int 3, .int 1, .int 0, false, true,
   some AggKind.squashDims, none, false⟩

/-- Concrete depth-0 MLP configuration for the C9 witness. -/
def zeroMlpCfg : MLPConfig :=
  ⟨some 3, .scalar 6, some 0, none, false, false, true, false, false⟩

/-- The state `zeroMlpCfg` resolves to. -/
def zeroMlpSt : MLPState := ⟨some 3, .scalar 6, 6, [], 0, false, false, true, false⟩

/-- **C9 witness**: the concrete depth-0 conv configurations error (2D
and 3D) while the depth-0 MLP builds a single `3 → 6` linear layer. -/
theorem depth_zero_behavior_witness :
    isErr (ConvNet_init false zeroConvCfg) = true ∧
    isErr (ConvNet_init true zeroConvCfg) = true ∧
    (MLP_make_net zeroMlpSt).filter isWeighted =
      [Layer.linear (some 3) 6 true] ∧
    (∃ st, MLP_init zeroMlpCfg = .ok st) := by
  refine ⟨?_, ?_, ?_, ?_⟩
  · exact depth_zero_behavior.1 false zeroConvCfg rfl
  · exact depth_zero_behavior.1 true zeroConvCfg rfl
  · exact depth_zero_behavior.2.1 zeroMlpCfg zeroMlpSt rfl (by decide)
  · exact depth_zero_behavior.2.2 zeroMlpCfg rfl rfl trivial

/-- `MLP._make_net` as the flatten of the per-pair blocks. -/
theorem MLP_make_net_eq (st : MLPState) :
    MLP_make_net st = (((mlpPairs st).enumFrom 0).map (mlpBlock st)).flatten := by
  rw [show MLP_make_net st = ((mlpPairs st).enum.map (mlpBlock st)).flatten from rfl,
      List.enum_eq_enumFrom]

/-- The sequential stack built by `MLP._make_net` maps any shape it
accepts to `s.dropLast ++ [out_features_num]`: each linear layer replaces
the last axis, each non-weighted layer preserves the shape, and the final
block's out-dimension is `out_features_num`. -/
theorem MLP_core_shape (st : MLPState) (s t : List ℕ)
    (h : forwardShape (MLP_make_net st) s = some t) :
    t = s.dropLast ++ [st.out_features_num] := by
  rw [MLP_make_net_eq] at h
  obtain ⟨q, hq⟩ := zip_feature_last st.out_features_num st.num_cells st.in_features
  exact mlp_chain st (mlpPairs st) 0 s t (q, st.out_features_num) hq h

/-- **C8**: for every constructed `MLP`, a forward call that returns an
output returns one whose last axis is `k` when `out_features` is the
scalar `k`, resp. whose trailing axes are the tuple `dims` when
`out_features` is a tuple, in both cases preserving all leading (batch)
dimensions unchanged; and the final weighted layer built has
`prod(out_features)` output units. -/
theorem mlp_forward_shape_law :
    ∀ (cfg : MLPConfig) (st : MLPState), MLP_init cfg = .ok st →
      (∀ s out, MLP_forward_shape st s = some out →
        (∀ k, st.out_features = .scalar k → out = s.dropLast ++ [k]) ∧
        (∀ dims, st.out_features = .multi dims → out = s.dropLast ++ dims)) ∧
      (∃ lin, ((MLP_make_net st).filter isWeighted).getLast? = some lin ∧
        layerOutDim lin = some (outFeaturesNum cfg.out_features)) := by
  intro cfg st hinit
  obtain ⟨_, hout, houtn, _, _, _, _, _, _⟩ := MLP_init_ok cfg st hinit
  constructor
  · intro s out hfwd
    unfold MLP_forward_shape at hfwd
    cases hmid : forwardShape (MLP_make_net st) s with
    | none => rw [hmid] at hfwd; simp at hfwd
    | some mid =>
        rw [hmid] at hfwd
        simp only [Option.some_bind] at hfwd
        have hmid' : mid = s.dropLast ++ [st.out_features_num] :=
          MLP_core_shape st s mid hmid
        constructor
        · intro k hk
          rw [hk] at hfwd
          simp only [Option.some_inj] at hfwd
          rw [← hfwd, hmid']
          have hkeq : st.out_features_num = k := by
            rw [houtn, ← hout, hk]
            rfl
          rw [hkeq]
        · intro dims hdims
          rw [hdims] at hfwd
          have hfwd' : (if (mid.dropLast ++ dims).prod = mid.prod then
              some (mid.dropLast ++ dims) else none) = some out := hfwd
          split at hfwd'
          · rw [Option.some_inj] at hfwd'
            rw [← hfwd', hmid', List.dropLast_concat]
          · simp at hfwd'
  · obtain ⟨q, hq⟩ := zip_feature_last st.out_features_num st.num_cells st.in_features
    have hq' : (mlpPairs st).getLast? = some (q, st.out_features_num) := hq
    refine ⟨mlpWeightFun st (0 + (mlpPairs st).length - 1, (q, st.out_features_num)),
      ?_, ?_⟩
    · rw [MLP_weighted, List.enum_eq_enumFrom, getLast?_enumFrom_map, hq']
      rfl
    · simp only [mlpWeightFun, layerOutDim, Option.some_inj]
      exact houtn

/-- Concrete depth-0 tuple-output MLP state (`out_features = (2, 3)`)
for the C8 witness. -/
def mlpShapeCfg : MLPConfig :=
  ⟨some 3, .multi [2, 3], some 0, none, false, false, true, false, false⟩

/-- The state `mlpShapeCfg` resolves to. -/
def mlpShapeSt : MLPState := ⟨some 3, .multi [2, 3], 6, [], 0, false, false, true, false⟩

/-- Concrete scalar-output MLP configuration for the C8 witness. -/
def mlpScalarCfg : MLPConfig :=
  ⟨some 3, .scalar 6, some 1, some (.seq [4]), false, false, true, false, false⟩

/-- The state `mlpScalarCfg` resolves to. -/
def mlpScalarSt : MLPState := ⟨some 3, .scalar 6, 6, [4], 1, false, false, true, false⟩

/-- **C8 witness**: a forward on shape `[7, 3]` through the tuple-output
network yields trailing dims `(2, 3)` with the leading `7` preserved; the
scalar-output network yields last dim `6`; both final weighted layers
have `prod(out_features) = 6` output units. -/
theorem mlp_forward_shape_law_witness :
    (MLP_forward_shape mlpShapeSt [7, 3] = some [7, 2, 3] ∧
      ([7, 2, 3] : List ℕ) = ([7, 3] : List ℕ).dropLast ++ [2, 3]) ∧
    (MLP_forward_shape mlpScalarSt [7, 3] = some [7, 6] ∧
      ([7, 6] : List ℕ) = ([7, 3] : List ℕ).dropLast ++ [6]) ∧
    (∃ lin, ((MLP_make_net mlpShapeSt).filter isWeighted).getLast? = some lin ∧
      layerOutDim lin = some (outFeaturesNum mlpShapeCfg.out_features)) := by
  have h1 := mlp_forward_shape_law mlpShapeCfg mlpShapeSt (by decide)
  have h2 := mlp_forward_shape_law mlpScalarCfg mlpScalarSt (by decide)
  refine ⟨⟨by decide, ?_⟩, ⟨by decide, ?_⟩, h1.2⟩
  · exact (h1.1 [7, 3] [7, 2, 3] (by decide)).2 [2, 3] rfl
  · exact (h2.1 [7, 3] [7, 6] (by decide)).1 6 rfl

end Models
